import Mathlib

/-!
# Verification of the popmart-monitor stock-check-and-notify loop

Shallow embedding of `monitor.js` (the stock monitor): the persisted stock
state, the seeding pass over tracked URLs, the retry wrapper `withRetries`,
the per-URL monitor loop with its rising-edge notification rule, and the
final persist-and-teardown sequence.  External effects (browser inspection
attempts, the awaited notification request, the state-file write) are
passed in as explicit outcomes; everything else is translated directly from
the source.
-/

namespace PopmartMonitor

/-! ## JSON values

The state file is read with the platform's JSON parser, so the in-memory
`state` variable can hold any JSON value, not only an object.  This type
models the parse result.  (String-keyed expando properties on arrays are
not modelled; they are invisible to the serialization and no tracked key
is an array index.) -/

inductive Json where
  | null
  | bool (b : Bool)
  | num (n : Int)
  | str (s : String)
  | arr (elems : List Json)
  | obj (fields : List (String × Json))

/-- JS property read on an object: fields in insertion order, first match. -/
def objLookup : List (String × Json) → String → Option Json
  | [], _ => none
  | (k, v) :: rest, key => if k = key then some v else objLookup rest key

/-- JS property assignment on an object: overwrite in place, else append. -/
def objSet : List (String × Json) → String → Json → List (String × Json)
  | [], key, v => [(key, v)]
  | (k, w) :: rest, key, v =>
      if k = key then (k, v) :: rest else (k, w) :: objSet rest key v

/-- The test `typeof state[url] === 'boolean'` (`none` is `undefined`). -/
def isBoolVal : Option Json → Bool
  | some (.bool _) => true
  | _ => false

/-! ## State seeding (monitor.js lines 46-50)

`for (const url of URLs) if (typeof state[url] !== 'boolean') state[url] = false;`
run against whatever JSON value the load step produced.  Reading a property
of `null` throws a TypeError; property assignment on a primitive is a
silent no-op in sloppy mode. -/

def seedJs : Json → List String → Except String Json
  | st, [] => .ok st
  | .null, _ :: _ => .error "TypeError: Cannot read properties of null"
  | .obj fields, url :: rest =>
      seedJs
        (.obj (if isBoolVal (objLookup fields url) then fields
               else objSet fields url (.bool false)))
        rest
  | st, _ :: rest => seedJs st rest

/-- The object-shaped trajectory of the seeding loop, for stating its
field-level properties. -/
def seedFields (fields : List (String × Json)) : List String → List (String × Json)
  | [] => fields
  | url :: rest =>
      seedFields
        (if isBoolVal (objLookup fields url) then fields
         else objSet fields url (.bool false))
        rest

/-! ## Retry wrapper (monitor.js lines 53-66)

`withRetries(fn, retries = 3, delay = 500)`: call `fn`; on failure
increment the attempt counter, re-throw the last error once
`attempt >= retries`, otherwise sleep `delay` ms and loop.  The successive
invocation outcomes of `fn` are supplied as a function of the attempt
index; the `while (true)` loop becomes recursion on the remaining retry
budget (`retries - 1` further calls after the first). -/

def retryLoop (fn : Nat → Except ε α) : Nat → Nat → Except ε α
  | attempt, remaining =>
    match fn attempt with
    | .ok a => .ok a
    | .error e =>
      match remaining with
      | 0 => .error e
      | r + 1 => retryLoop fn (attempt + 1) r

def withRetries (fn : Nat → Except ε α) (retries : Nat) : Except ε α :=
  retryLoop fn 0 (retries - 1)

/-- `withRetries` instrumented with its observable side effects: the number
of invocations of `fn` and the list of sleeps (in ms) taken between them. -/
def retryLoopTraced (fn : Nat → Except ε α) (delay : Nat) :
    Nat → Nat → Except ε α × Nat × List Nat
  | attempt, remaining =>
    match fn attempt with
    | .ok a => (.ok a, 1, [])
    | .error e =>
      match remaining with
      | 0 => (.error e, 1, [])
      | r + 1 =>
          match retryLoopTraced fn delay (attempt + 1) r with
          | (res, n, ds) => (res, n + 1, delay :: ds)

def withRetriesTraced (fn : Nat → Except ε α) (retries delay : Nat) :
    Except ε α × Nat × List Nat :=
  retryLoopTraced fn delay 0 (retries - 1)

/-! ## The per-URL monitor loop (monitor.js lines 96-151) -/

/-- In-memory stock state restricted to the seeded happy path: one boolean
per URL, in insertion order. -/
def StockState : Type := List (String × Bool)

/-- `state[url]` as used in the rising-edge test (a missing key reads as
`undefined`, which is falsy there). -/
def getState : StockState → String → Bool
  | [], _ => false
  | (k, v) :: rest, url => if k = url then v else getState rest url

/-- `state[url] = b`: overwrite in place, else append. -/
def setState : StockState → String → Bool → StockState
  | [], url, b => [(url, b)]
  | (k, v) :: rest, url, b =>
      if k = url then (k, b) :: rest else (k, v) :: setState rest url b

/-- The outcome carried by a resolved notification request
(`fetch` resolves with a `Response` even on an HTTP-level error; the code
never inspects it). -/
structure NotifyResponse where
  httpOk : Bool

/-- Environment for one URL: the outcomes of the successive inspection
attempts (the closure handed to `withRetries`), the page title read before
notifying, and the outcome of the awaited notification request
(`.error` means the `fetch` promise rejected). -/
structure UrlEnv where
  inspect : Nat → Except String Bool
  title : String
  notify : Except String NotifyResponse

/-- Why the per-URL `try` block threw. -/
inductive UrlFailure where
  | inspectFailed (e : String)
  | notifyRejected (e : String)

/-- Body of the per-URL `try` block: run the retried inspection, on a
rising edge invoke the notifier (the message list records each invocation),
and report the value that reaches the `state[url] = nowInStock` write.
An exception anywhere skips that write. -/
def checkUrl (env : UrlEnv) (url : String) (wasInStock : Bool) :
    Except UrlFailure Bool × List String :=
  match withRetries env.inspect 3 with
  | .error e => (.error (.inspectFailed e), [])
  | .ok nowInStock =>
    if !wasInStock && nowInStock then
      match env.notify with
      | .error e => (.error (.notifyRejected e),
                     [env.title ++ " is back in stock → " ++ url])
      | .ok _ => (.ok nowInStock, [env.title ++ " is back in stock → " ++ url])
    else (.ok nowInStock, [])

/-- One iteration of the URL loop: read `wasInStock`, run the `try` block,
update the state on the success path, leave it untouched on the `catch`
path.  Returns the updated state and the notifications invoked. -/
def processUrl (env : UrlEnv) (url : String) (st : StockState) :
    StockState × List String :=
  match checkUrl env url (getState st url) with
  | (.ok nowInStock, alerts) => (setState st url nowInStock, alerts)
  | (.error _, alerts) => (st, alerts)

/-- The whole URL loop, threading the in-memory state left to right and
collecting every notification invocation of the run. -/
def monitorRun (env : String → UrlEnv) : List String → StockState → StockState × List String
  | [], st => (st, [])
  | url :: rest, st =>
    match processUrl (env url) url st with
    | (st1, a1) =>
      match monitorRun env rest st1 with
      | (st2, a2) => (st2, a1 ++ a2)

/-! ## The persisted state file (monitor.js lines 38-45 and 153-159)

The file is written with `JSON.stringify(state, null, 2)` and read with
`JSON.parse`.  Both are platform builtins, modelled here character by
character on the fragment of JSON this program reads and writes: the flat
object of booleans produced by `save`, plus the top-level literals needed
to observe what `JSON.parse` does on legal-but-non-object content. -/

def isWsChar (c : Char) : Bool :=
  c = ' ' || c = '\n' || c = '\t' || c = '\r'

def skipWs : List Char → List Char
  | [] => []
  | c :: rest => if isWsChar c then skipWs rest else c :: rest

/-- A character that `JSON.stringify` emits verbatim inside a quoted string
and that the reader consumes verbatim: not a quote, not a backslash, not a
control character.  Every character of a product URL qualifies. -/
def plainKeyChar (c : Char) : Bool :=
  !(c = '"') && !(c = '\\') && 32 ≤ c.toNat

def validKey (k : String) : Bool := k.data.all plainKeyChar

/-- Consume a quoted key up to its closing quote (no escapes: the keys this
program writes contain none). -/
def parseKeyChars : List Char → Option (List Char × List Char)
  | [] => none
  | c :: rest =>
    if c = '"' then some ([], rest)
    else if plainKeyChar c then
      match parseKeyChars rest with
      | some (ks, rem) => some (c :: ks, rem)
      | none => none
    else none

def parseBoolLit : List Char → Option (Bool × List Char)
  | 't' :: 'r' :: 'u' :: 'e' :: rest => some (true, rest)
  | 'f' :: 'a' :: 'l' :: 's' :: 'e' :: rest => some (false, rest)
  | _ => none

/-- One or more `"key": bool` members, consuming the closing brace of the
object.  `fuel` bounds the recursion; one unit is spent per member. -/
def parseMembers : Nat → List Char → Option (List (String × Bool) × List Char)
  | 0, _ => none
  | fuel + 1, cs =>
    match skipWs cs with
    | '"' :: rest =>
      match parseKeyChars rest with
      | none => none
      | some (ks, rem) =>
        match skipWs rem with
        | ':' :: rem2 =>
          match parseBoolLit (skipWs rem2) with
          | none => none
          | some (b, rem3) =>
            match skipWs rem3 with
            | ',' :: rem4 =>
              match parseMembers fuel rem4 with
              | some (entries, rem5) => some ((String.mk ks, b) :: entries, rem5)
              | none => none
            | '}' :: rem4 => some ([(String.mk ks, b)], rem4)
            | _ => none
        | _ => none
    | _ => none

/-- Parse a whole state file: a single flat object of booleans, with
nothing but whitespace around it. -/
def parseStateChars (cs : List Char) : Option (List (String × Bool)) :=
  match skipWs cs with
  | '{' :: rest =>
    match skipWs rest with
    | '}' :: rem => if skipWs rem = [] then some [] else none
    | _ =>
      match parseMembers (rest.length + 1) rest with
      | some (entries, rem) => if skipWs rem = [] then some entries else none
      | none => none
  | _ => none

def parseStateFile (s : String) : Option (List (String × Bool)) :=
  parseStateChars s.data

/-- `JSON.stringify(state, null, 2)` on the flat boolean object, character
by character. -/
def printBoolChars (b : Bool) : List Char :=
  if b then ['t', 'r', 'u', 'e'] else ['f', 'a', 'l', 's', 'e']

def printEntryChars (k : String) (b : Bool) : List Char :=
  ' ' :: ' ' :: '"' :: (k.data ++ '"' :: ':' :: ' ' :: printBoolChars b)

def printEntriesChars : List (String × Bool) → List Char
  | [] => []
  | [(k, b)] => printEntryChars k b
  | (k, b) :: e :: rest => printEntryChars k b ++ ',' :: '\n' :: printEntriesChars (e :: rest)

def stringifyChars : List (String × Bool) → List Char
  | [] => ['{', '}']
  | e :: rest => '{' :: '\n' :: (printEntriesChars (e :: rest) ++ ['\n', '}'])

def stringifyState (st : List (String × Bool)) : String :=
  String.mk (stringifyChars st)

/-- The JSON value that a parsed state object denotes. -/
def stateToJson (st : List (String × Bool)) : Json :=
  .obj (st.map fun kb => (kb.1, .bool kb.2))

def trimChars (cs : List Char) : List Char :=
  ((cs.dropWhile isWsChar).reverse.dropWhile isWsChar).reverse

/-- `JSON.parse` on the fragment of JSON this program encounters: the state
objects it writes, plus the top-level literals `null`, `true`, `false`.
Anything else on this fragment throws, which `load` turns into a warning. -/
def parseJsonTopChars (cs : List Char) : Option Json :=
  match parseStateChars cs with
  | some st => some (stateToJson st)
  | none =>
    match trimChars cs with
    | ['n', 'u', 'l', 'l'] => some .null
    | ['t', 'r', 'u', 'e'] => some (.bool true)
    | ['f', 'a', 'l', 's', 'e'] => some (.bool false)
    | _ => none

def parseJsonTop (s : String) : Option Json :=
  parseJsonTopChars s.data

/-- What the process finds at the state-file path. -/
inductive FileRead where
  | missing
  | content (s : String)

/-- Load-or-initialize (monitor.js lines 38-45): `state = {}`; if the file
exists, try to parse it, keeping `{}` and warning on a parse error.
Returns the state value and whether the warning was printed. -/
def loadState : FileRead → Json × Bool
  | .missing => (.obj [], false)
  | .content s =>
    match parseJsonTop s with
    | some j => (j, false)
    | none => (.obj [], true)

/-! ## Persist and teardown (monitor.js lines 153-163) -/

inductive RunEvent where
  | saveAttempted (bytes : String)
  | saveSucceededLog
  | saveFailedLog (msg : String)
  | browserClosed

def isSaveAttempted : RunEvent → Bool
  | .saveAttempted _ => true
  | _ => false

/-- The tail of the run: one `writeFileSync` of the serialized state inside
a `try` whose `catch` only logs, then `browser.close()` outside it. -/
def finishRun (st : StockState) (writeResult : Except String Unit) : List RunEvent :=
  (RunEvent.saveAttempted (stringifyState st) ::
    match writeResult with
    | .ok _ => [RunEvent.saveSucceededLog]
    | .error e => [RunEvent.saveFailedLog e]) ++ [RunEvent.browserClosed]

/-- The events after the URL loop of a whole run. -/
def fullRunEvents (env : String → UrlEnv) (urls : List String) (st0 : StockState)
    (writeResult : Except String Unit) : List RunEvent :=
  finishRun (monitorRun env urls st0).1 writeResult

/-! ## Concrete environments used as inputs below -/

/-- Inspection succeeds with in-stock, but the awaited notification request
rejects (network-level delivery failure). -/
def badNotifyEnv : UrlEnv :=
  ⟨fun _ => .ok true, "Thing", .error "ECONNRESET"⟩

/-- Inspection succeeds with in-stock; the notification request resolves,
but with an HTTP-level error status (`ok = false`), which the code never
inspects. -/
def httpFailEnv : UrlEnv :=
  ⟨fun _ => .ok true, "Thing", .ok ⟨false⟩⟩

/-- Every inspection attempt fails. -/
def failEnvA : UrlEnv :=
  ⟨fun _ => .error "selector timeout", "A page", .ok ⟨true⟩⟩

/-- Inspection succeeds with in-stock and notification delivers. -/
def okTrueEnvB : UrlEnv :=
  ⟨fun _ => .ok true, "B page", .ok ⟨true⟩⟩

/-- Inspection succeeds with out-of-stock. -/
def outOfStockEnv : UrlEnv :=
  ⟨fun _ => .ok false, "t", .ok ⟨true⟩⟩

/-- URL "A" always fails inspection, every other URL is in stock. -/
def twoUrlEnv : String → UrlEnv :=
  fun u => if u = "A" then failEnvA else okTrueEnvB

/-! ## Shared lemmas -/

theorem getState_setState_self (st : StockState) (url : String) (b : Bool) :
    getState (setState st url b) url = b := by
  induction st with
  | nil => simp [setState, getState]
  | cons kv rest ih =>
    obtain ⟨k, v⟩ := kv
    by_cases h : k = url <;> simp [setState, getState, h, ih]

theorem parseKeyChars_append (ks rest : List Char)
    (h : ∀ c ∈ ks, plainKeyChar c = true) :
    parseKeyChars (ks ++ '"' :: rest) = some (ks, rest) := by
  induction ks with
  | nil => simp [parseKeyChars]
  | cons c ks ih =>
    have hc := h c (by simp)
    have hq : ¬ (c = '"') := by
      intro e; subst e; simp [plainKeyChar] at hc
    simp [parseKeyChars, hq, hc, ih (fun c hm => h c (by simp [hm]))]

theorem parseBoolLit_print (b : Bool) (rest : List Char) :
    parseBoolLit (printBoolChars b ++ rest) = some (b, rest) := by
  cases b <;> rfl

theorem skipWs_printBool_append (b : Bool) (rest : List Char) :
    skipWs (printBoolChars b ++ rest) = printBoolChars b ++ rest := by
  cases b <;> simp [printBoolChars, skipWs, isWsChar]

theorem parseMembers_skip (f : Nat) (c : Char) (cs : List Char) (h : isWsChar c = true) :
    parseMembers (f + 1) (c :: cs) = parseMembers (f + 1) cs := by
  simp only [parseMembers]
  rw [show skipWs (c :: cs) = skipWs cs by simp [skipWs, h]]

theorem parseMembers_entry (f : Nat) (k : String) (b : Bool) (cont : List Char)
    (hk : validKey k = true) :
    parseMembers (f + 1) (printEntryChars k b ++ cont) =
      (match skipWs cont with
       | ',' :: rem4 =>
         (match parseMembers f rem4 with
          | some (entries, rem5) => some ((k, b) :: entries, rem5)
          | none => none)
       | '}' :: rem4 => some ([(k, b)], rem4)
       | _ => none) := by
  have hkc : ∀ c ∈ k.data, plainKeyChar c = true := by
    simpa [validKey, List.all_eq_true] using hk
  simp only [parseMembers, printEntryChars, List.cons_append, List.append_assoc]
  rw [show skipWs (' ' :: ' ' :: '"' ::
        (k.data ++ '"' :: ':' :: ' ' :: (printBoolChars b ++ cont)))
      = '"' :: (k.data ++ '"' :: ':' :: ' ' :: (printBoolChars b ++ cont)) by
    simp [skipWs, isWsChar]]
  simp only
  rw [parseKeyChars_append k.data (':' :: ' ' :: (printBoolChars b ++ cont)) hkc]
  simp only
  rw [show skipWs (':' :: ' ' :: (printBoolChars b ++ cont))
      = ':' :: ' ' :: (printBoolChars b ++ cont) by simp [skipWs, isWsChar]]
  simp only
  rw [show skipWs (' ' :: (printBoolChars b ++ cont)) = printBoolChars b ++ cont by
    rw [skipWs]
    simp [isWsChar, skipWs_printBool_append]]
  rw [parseBoolLit_print]

theorem parseMembers_print (entries : List (String × Bool)) :
    ∀ (fuel : Nat) (tail : List Char),
      (∀ kb ∈ entries, validKey kb.1 = true) →
      entries ≠ [] →
      entries.length ≤ fuel →
      parseMembers fuel (printEntriesChars entries ++ '\n' :: '}' :: tail)
        = some (entries, tail) := by
  induction entries with
  | nil => intro fuel tail _ h _; exact absurd rfl h
  | cons kb rest ih =>
    obtain ⟨k, b⟩ := kb
    intro fuel tail hvalid _ hfuel
    have hk : validKey k = true := hvalid (k, b) (by simp)
    cases fuel with
    | zero => simp at hfuel
    | succ f =>
      cases rest with
      | nil =>
        rw [show printEntriesChars [(k, b)] = printEntryChars k b from rfl]
        rw [parseMembers_entry f k b ('\n' :: '}' :: tail) hk]
        simp [skipWs, isWsChar]
      | cons e rest2 =>
        rw [show printEntriesChars ((k, b) :: e :: rest2)
            = printEntryChars k b ++ ',' :: '\n' :: printEntriesChars (e :: rest2) from rfl]
        rw [List.append_assoc, List.cons_append, List.cons_append]
        rw [parseMembers_entry f k b
          (',' :: '\n' :: (printEntriesChars (e :: rest2) ++ '\n' :: '}' :: tail)) hk]
        rw [show skipWs (',' :: '\n' :: (printEntriesChars (e :: rest2) ++ '\n' :: '}' :: tail))
            = ',' :: '\n' :: (printEntriesChars (e :: rest2) ++ '\n' :: '}' :: tail) by
          simp [skipWs, isWsChar]]
        obtain ⟨f2, rfl⟩ : ∃ f2, f = f2 + 1 := ⟨f - 1, by simp at hfuel; omega⟩
        have hrec : parseMembers (f2 + 1)
            ('\n' :: (printEntriesChars (e :: rest2) ++ '\n' :: '}' :: tail))
            = some (e :: rest2, tail) := by
          rw [parseMembers_skip f2 '\n' _ (by simp [isWsChar])]
          exact ih (f2 + 1) tail (fun kb hm => hvalid kb (by simp [hm])) (by simp)
            (by simp at hfuel ⊢; omega)
        simp [hrec]

theorem length_printEntryChars_pos (k : String) (b : Bool) :
    1 ≤ (printEntryChars k b).length := by
  cases b <;> simp [printEntryChars, printBoolChars]

theorem length_printEntriesChars (entries : List (String × Bool)) :
    entries.length ≤ (printEntriesChars entries).length := by
  induction entries with
  | nil => simp [printEntriesChars]
  | cons kb rest ih =>
    obtain ⟨k, b⟩ := kb
    cases rest with
    | nil =>
      simpa [printEntriesChars] using length_printEntryChars_pos k b
    | cons e rest2 =>
      rw [show printEntriesChars ((k, b) :: e :: rest2)
          = printEntryChars k b ++ ',' :: '\n' :: printEntriesChars (e :: rest2) from rfl]
      have h1 := length_printEntryChars_pos k b
      simp only [List.length_append, List.length_cons] at *
      omega

theorem parseStateChars_print (st : List (String × Bool))
    (h : ∀ kb ∈ st, validKey kb.1 = true) :
    parseStateChars (stringifyChars st) = some st := by
  cases st with
  | nil => rfl
  | cons kb rest =>
    obtain ⟨k, b⟩ := kb
    have hmem : parseMembers
        (('\n' :: (printEntriesChars ((k, b) :: rest) ++ ['\n', '}'])).length + 1)
        ('\n' :: (printEntriesChars ((k, b) :: rest) ++ ['\n', '}']))
        = some ((k, b) :: rest, []) := by
      have hbl : ('\n' :: (printEntriesChars ((k, b) :: rest) ++ ['\n', '}'])).length + 1
          = ((printEntriesChars ((k, b) :: rest) ++ ['\n', '}']).length + 1) + 1 := by
        simp
      rw [hbl, parseMembers_skip _ '\n' _ (by simp [isWsChar])]
      have hlen := length_printEntriesChars ((k, b) :: rest)
      refine parseMembers_print ((k, b) :: rest) _ [] h (by simp) ?_
      simp only [List.length_append, List.length_cons] at *
      omega
    have hB : ∃ X, skipWs ('\n' :: (printEntriesChars ((k, b) :: rest) ++ ['\n', '}']))
        = '"' :: X := by
      cases rest with
      | nil =>
        refine ⟨k.data ++ '"' :: ':' :: ' ' :: (printBoolChars b ++ ['\n', '}']), ?_⟩
        simp [printEntriesChars, printEntryChars, skipWs, isWsChar, List.append_assoc]
      | cons e rest2 =>
        refine ⟨k.data ++ '"' :: ':' :: ' ' ::
          (printBoolChars b ++ (',' :: '\n' :: (printEntriesChars (e :: rest2) ++ ['\n', '}']))), ?_⟩
        simp [printEntriesChars, printEntryChars, skipWs, isWsChar, List.append_assoc]
    obtain ⟨X, hX⟩ := hB
    show parseStateChars
        ('{' :: '\n' :: (printEntriesChars ((k, b) :: rest) ++ ['\n', '}'])) = _
    show (match skipWs ('\n' :: (printEntriesChars ((k, b) :: rest) ++ ['\n', '}'])) with
         | '}' :: rem => if skipWs rem = [] then some [] else none
         | _ =>
           match parseMembers
               (('\n' :: (printEntriesChars ((k, b) :: rest) ++ ['\n', '}'])).length + 1)
               ('\n' :: (printEntriesChars ((k, b) :: rest) ++ ['\n', '}'])) with
           | some (entries, rem) => if skipWs rem = [] then some entries else none
           | none => none) = some ((k, b) :: rest)
    rw [hX, hmem]
    rfl

theorem isBoolVal_iff (o : Option Json) : isBoolVal o = true ↔ ∃ b, o = some (.bool b) := by
  cases o with
  | none => simp [isBoolVal]
  | some j => cases j <;> simp [isBoolVal]

theorem objLookup_objSet_self (fs : List (String × Json)) (k : String) (v : Json) :
    objLookup (objSet fs k v) k = some v := by
  induction fs with
  | nil => simp [objSet, objLookup]
  | cons kv rest ih =>
    obtain ⟨k0, v0⟩ := kv
    by_cases h : k0 = k <;> simp [objSet, objLookup, h, ih]

theorem objLookup_objSet_ne (fs : List (String × Json)) (k k' : String) (v : Json)
    (h : k ≠ k') : objLookup (objSet fs k v) k' = objLookup fs k' := by
  induction fs with
  | nil => simp [objSet, objLookup, h]
  | cons kv rest ih =>
    obtain ⟨k0, v0⟩ := kv
    by_cases h0 : k0 = k
    · subst h0; simp [objSet, objLookup, h]
    · by_cases h1 : k0 = k' <;> simp [objSet, objLookup, h0, h1, ih, Ne.symm h]

theorem seedFields_preserves_bool (urls : List String) :
    ∀ (fs : List (String × Json)) (k : String) (b : Bool),
      objLookup fs k = some (.bool b) →
      objLookup (seedFields fs urls) k = some (.bool b) := by
  induction urls with
  | nil => intro fs k b h; simpa [seedFields] using h
  | cons u rest ih =>
    intro fs k b h
    rw [seedFields]
    apply ih
    by_cases hk : u = k
    · subst hk
      rw [h]
      simpa [isBoolVal] using h
    · by_cases hb : isBoolVal (objLookup fs u)
      · rwa [if_pos hb]
      · rw [if_neg hb, objLookup_objSet_ne fs u k (Json.bool false) hk]
        exact h

theorem seedFields_mem (urls : List String) :
    ∀ (fs : List (String × Json)) (url : String), url ∈ urls →
      ∃ b, objLookup (seedFields fs urls) url = some (.bool b) := by
  induction urls with
  | nil => intro fs url h; cases h
  | cons u rest ih =>
    intro fs url h
    rw [seedFields]
    by_cases hu : u = url
    · subst hu
      by_cases hb : isBoolVal (objLookup fs u)
      · obtain ⟨b, hbv⟩ := (isBoolVal_iff _).mp hb
        exact ⟨b, by rw [if_pos hb]; exact seedFields_preserves_bool rest fs u b hbv⟩
      · refine ⟨false, ?_⟩
        rw [if_neg hb]
        exact seedFields_preserves_bool rest _ u false (objLookup_objSet_self fs u _)
    · rcases List.mem_cons.mp h with h1 | h2
      · exact absurd h1.symm hu
      · exact ih _ url h2

theorem seedFields_missing (urls : List String) :
    ∀ (fs : List (String × Json)) (url : String), url ∈ urls →
      objLookup fs url = none →
      objLookup (seedFields fs urls) url = some (.bool false) := by
  induction urls with
  | nil => intro fs url h; cases h
  | cons u rest ih =>
    intro fs url hmem hnone
    rw [seedFields]
    by_cases hu : u = url
    · subst hu
      rw [hnone, if_neg (by simp [isBoolVal])]
      exact seedFields_preserves_bool rest _ u false (objLookup_objSet_self fs u _)
    · have hnone' :
          objLookup (if isBoolVal (objLookup fs u) then fs
                     else objSet fs u (.bool false)) url = none := by
        by_cases hb : isBoolVal (objLookup fs u)
        · rwa [if_pos hb]
        · rw [if_neg hb, objLookup_objSet_ne fs u url _ hu]
          exact hnone
      have hmem' : url ∈ rest := by
        rcases List.mem_cons.mp hmem with h1 | h2
        · exact absurd h1.symm hu
        · exact h2
      exact ih _ url hmem' hnone'

theorem seedJs_obj (urls : List String) :
    ∀ fs, seedJs (.obj fs) urls = .ok (.obj (seedFields fs urls)) := by
  induction urls with
  | nil => intro fs; rfl
  | cons u rest ih =>
    intro fs
    exact ih (if isBoolVal (objLookup fs u) then fs else objSet fs u (.bool false))

/-! ## Claims -/

/-- C1 (amended): for every URL whose inspection succeeds, the notifier is
invoked iff the stored state before the check is false and the new
observation is true; and, provided the first run's notifier invocation does
not throw, two successive runs that both observe in-stock for the same URL
invoke it at most once in total. -/
theorem c1_risingEdge_amended :
    (∀ (env : UrlEnv) (url : String) (st : StockState) (b : Bool),
        withRetries env.inspect 3 = .ok b →
        ((processUrl env url st).2 ≠ [] ↔ (getState st url = false ∧ b = true)))
    ∧ (∀ (env1 env2 : String → UrlEnv) (url : String) (st0 : StockState)
          (r : NotifyResponse),
        withRetries (env1 url).inspect 3 = .ok true →
        withRetries (env2 url).inspect 3 = .ok true →
        (env1 url).notify = .ok r →
        ((monitorRun env1 [url] st0).2
          ++ (monitorRun env2 [url] (monitorRun env1 [url] st0).1).2).length ≤ 1) := by
  constructor
  · intro env url st b h
    cases hn : env.notify <;>
      cases hw : getState st url <;> cases b <;>
        simp [processUrl, checkUrl, h, hn, hw]
  · intro env1 env2 url st0 r h1 h2 h3
    cases hw : getState st0 url <;>
      simp [monitorRun, processUrl, checkUrl, h1, h2, h3, hw, getState_setState_self]

/-- C1 counterexample: both successive runs observe in-stock, but because
the notifier request rejects the state never becomes true, so both runs
invoke the notifier — two alerts in total, not at most one. -/
theorem c1_counterexample :
    withRetries badNotifyEnv.inspect 3 = .ok true ∧
    ¬ (((monitorRun (fun _ => badNotifyEnv) ["P"] [("P", false)]).2
        ++ (monitorRun (fun _ => badNotifyEnv) ["P"]
             (monitorRun (fun _ => badNotifyEnv) ["P"] [("P", false)]).1).2).length ≤ 1) :=
  ⟨rfl, by decide⟩

/-- C1 witness: with a delivering notifier, two successive in-stock runs
yield at most one alert. -/
theorem c1_witness :
    ((monitorRun (fun _ => okTrueEnvB) ["P"] [("P", false)]).2
      ++ (monitorRun (fun _ => okTrueEnvB) ["P"]
           (monitorRun (fun _ => okTrueEnvB) ["P"] [("P", false)]).1).2).length ≤ 1 :=
  c1_risingEdge_amended.2 (fun _ => okTrueEnvB) (fun _ => okTrueEnvB) "P" [("P", false)]
    ⟨true⟩ rfl rfl rfl

/-- C2 (amended): on a rising edge the notifier is invoked; if the awaited
request resolves — whatever its HTTP-level outcome — the stored state is
set to true, but if it rejects, the per-URL catch skips the state update
and the prior value false is retained. -/
theorem c2_stateUpdate_amended (env : UrlEnv) (url : String) (st : StockState)
    (hw : getState st url = false) (hi : withRetries env.inspect 3 = .ok true) :
    (∀ r : NotifyResponse, env.notify = .ok r →
        processUrl env url st =
          (setState st url true, [env.title ++ " is back in stock → " ++ url]))
    ∧ (∀ e : String, env.notify = .error e →
        processUrl env url st = (st, [env.title ++ " is back in stock → " ++ url])) := by
  constructor
  · intro r hn; simp [processUrl, checkUrl, hi, hw, hn]
  · intro e hn; simp [processUrl, checkUrl, hi, hw, hn]

/-- C2 witness: an HTTP-level delivery failure (resolved response with
`ok = false`) still lets the state update to true. -/
theorem c2_witness :
    processUrl httpFailEnv "P" [("P", false)] =
      ([("P", true)], ["Thing is back in stock → P"]) :=
  (c2_stateUpdate_amended httpFailEnv "P" [("P", false)] rfl rfl).1 ⟨false⟩ rfl

/-- C2 counterexample: rising edge (prior false, observation true), the
notifier is invoked once, yet the stored state is left false — the
rejection of the awaited request prevents the state update. -/
theorem c2_counterexample :
    getState [("P", false)] "P" = false ∧
    withRetries badNotifyEnv.inspect 3 = .ok true ∧
    (monitorRun (fun _ => badNotifyEnv) ["P"] [("P", false)]).2.length = 1 ∧
    (monitorRun (fun _ => badNotifyEnv) ["P"] [("P", false)]).1 = [("P", false)] :=
  ⟨rfl, rfl, rfl, rfl⟩

/-- C3: a URL whose inspection exhausts all retry attempts leaves the state
untouched and sends nothing, and the rest of the run proceeds exactly as if
that URL had been skipped — later URLs are still inspected and updated. -/
theorem c3_failureIsolation (env : String → UrlEnv) (url : String) (rest : List String)
    (st : StockState) (e : String)
    (h : withRetries (env url).inspect 3 = .error e) :
    processUrl (env url) url st = (st, []) ∧
    monitorRun env (url :: rest) st = monitorRun env rest st := by
  have hp : processUrl (env url) url st = (st, []) := by
    simp [processUrl, checkUrl, h]
  refine ⟨hp, ?_⟩
  show (match processUrl (env url) url st with
        | (st1, a1) =>
          match monitorRun env rest st1 with
          | (st2, a2) => (st2, a1 ++ a2)) = monitorRun env rest st
  rw [hp]
  rcases hr : monitorRun env rest st with ⟨st2, a2⟩
  simp [hr]

/-- C3 witness: URL "A" exhausts its retries over state
`[("A", true), ("B", false)]`; its entry is untouched and the run continues
with "B". -/
theorem c3_witness :
    processUrl (twoUrlEnv "A") "A" [("A", true), ("B", false)]
        = ([("A", true), ("B", false)], []) ∧
    monitorRun twoUrlEnv ["A", "B"] [("A", true), ("B", false)]
        = monitorRun twoUrlEnv ["B"] [("A", true), ("B", false)] :=
  c3_failureIsolation twoUrlEnv "A" ["B"] [("A", true), ("B", false)]
    "selector timeout" rfl

/-- C4: the retry wrapper at `maxAttempts = 3`, `delayMs = 500` calls the
operation until success or three attempts, sleeps a fixed 500 ms between
attempts and never after the last failure, and on exhaustion re-raises the
third attempt's error unchanged; its result agrees with the untraced
wrapper the loop uses. -/
theorem c4_retryContract {ε α : Type} (fn : Nat → Except ε α) :
    (∀ e0 e1 e2, fn 0 = .error e0 → fn 1 = .error e1 → fn 2 = .error e2 →
        withRetriesTraced fn 3 500 = (.error e2, 3, [500, 500]))
    ∧ (∀ a, fn 0 = .ok a → withRetriesTraced fn 3 500 = (.ok a, 1, []))
    ∧ (∀ e0 a, fn 0 = .error e0 → fn 1 = .ok a →
        withRetriesTraced fn 3 500 = (.ok a, 2, [500]))
    ∧ (∀ e0 e1 a, fn 0 = .error e0 → fn 1 = .error e1 → fn 2 = .ok a →
        withRetriesTraced fn 3 500 = (.ok a, 3, [500, 500]))
    ∧ (withRetriesTraced fn 3 500).1 = withRetries fn 3 := by
  refine ⟨?_, ?_, ?_, ?_, ?_⟩
  · intro e0 e1 e2 h0 h1 h2
    simp [withRetriesTraced, retryLoopTraced, h0, h1, h2]
  · intro a h0
    simp [withRetriesTraced, retryLoopTraced, h0]
  · intro e0 a h0 h1
    simp [withRetriesTraced, retryLoopTraced, h0, h1]
  · intro e0 e1 a h0 h1 h2
    simp [withRetriesTraced, retryLoopTraced, h0, h1, h2]
  · rcases h0 : fn 0 with e0 | a0 <;>
      rcases h1 : fn 1 with e1 | a1 <;>
        rcases h2 : fn 2 with e2 | a2 <;>
          simp [withRetriesTraced, retryLoopTraced, withRetries, retryLoop, h0, h1, h2]

/-- C4 witness: all three attempts fail with distinguishable errors; the
wrapper makes three calls, sleeps twice for 500 ms, and re-raises the third
error. -/
theorem c4_witness :
    withRetriesTraced (fun i => (.error i : Except Nat Nat)) 3 500
      = (.error 2, 3, [500, 500]) :=
  (c4_retryContract (fun i => (.error i : Except Nat Nat))).1 0 1 2 rfl rfl rfl

/-- C5: an observation of false sets the stored state to false regardless
of its prior value (and sends nothing), so a later in-stock observation
sees false and can alert again. -/
theorem c5_resetOnOutOfStock (env : UrlEnv) (url : String) (st : StockState)
    (h : withRetries env.inspect 3 = .ok false) :
    processUrl env url st = (setState st url false, []) ∧
    getState (processUrl env url st).1 url = false := by
  have hp : processUrl env url st = (setState st url false, []) := by
    simp [processUrl, checkUrl, h]
  exact ⟨hp, by rw [hp]; exact getState_setState_self st url false⟩

/-- C5 witness: a previously alerted URL observed out of stock is reset to
false. -/
theorem c5_witness :
    processUrl outOfStockEnv "P" [("P", true)] = ([("P", false)], []) ∧
    getState (processUrl outOfStockEnv "P" [("P", true)]).1 "P" = false :=
  c5_resetOnOutOfStock outOfStockEnv "P" [("P", true)] rfl

/-- C9: after the URL loop the accumulated state is written exactly once; a
failed write only adds an error log, and the browser teardown is the last
event whatever the write outcome. -/
theorem c9_persistAndTeardown (env : String → UrlEnv) (urls : List String)
    (st0 : StockState) (w : Except String Unit) :
    ((fullRunEvents env urls st0 w).filter isSaveAttempted).length = 1 ∧
    (fullRunEvents env urls st0 w).getLast? = some .browserClosed ∧
    (∀ e, fullRunEvents env urls st0 (.error e)
        = [.saveAttempted (stringifyState (monitorRun env urls st0).1),
           .saveFailedLog e, .browserClosed]) := by
  refine ⟨?_, ?_, fun e => rfl⟩ <;>
    cases w <;> simp [fullRunEvents, finishRun, isSaveAttempted]

/-- C6: the seeding pass over an object state never throws; afterwards
every tracked URL has a boolean entry, a URL with no prior entry is seeded
to false, and existing boolean entries keep their values; seeding the empty
object with ["X", "Y"] yields exactly the two false entries. -/
theorem c6_seedingContract :
    (∀ (fields : List (String × Json)) (urls : List String),
        seedJs (.obj fields) urls = .ok (.obj (seedFields fields urls)))
    ∧ (∀ (urls : List String) (fields : List (String × Json)) (url : String),
        url ∈ urls → ∃ b, objLookup (seedFields fields urls) url = some (.bool b))
    ∧ (∀ (urls : List String) (fields : List (String × Json)) (url : String),
        url ∈ urls → objLookup fields url = none →
        objLookup (seedFields fields urls) url = some (.bool false))
    ∧ (∀ (urls : List String) (fields : List (String × Json)) (k : String) (b : Bool),
        objLookup fields k = some (.bool b) →
        objLookup (seedFields fields urls) k = some (.bool b))
    ∧ seedJs (.obj []) ["X", "Y"] = .ok (.obj [("X", .bool false), ("Y", .bool false)]) :=
  ⟨fun fields urls => seedJs_obj urls fields,
   fun urls fields url h => seedFields_mem urls fields url h,
   fun urls fields url h h' => seedFields_missing urls fields url h h',
   fun urls fields k b h => seedFields_preserves_bool urls fields k b h,
   rfl⟩

/-- C6 witness: seeding `[("E", .bool true)]` with ["E", "X"] keeps the
existing entry and adds the missing one as false. -/
theorem c6_witness :
    objLookup (seedFields [("E", .bool true)] ["E", "X"]) "X" = some (.bool false) ∧
    objLookup (seedFields [("E", .bool true)] ["E", "X"]) "E" = some (.bool true) :=
  ⟨c6_seedingContract.2.2.1 ["E", "X"] [("E", .bool true)] "X" (by simp) rfl,
   c6_seedingContract.2.2.2.1 ["E", "X"] [("E", .bool true)] "E" true rfl⟩

/-- C7: a missing state file loads as the empty object without a warning;
file content that the JSON parser rejects loads as the empty object with
the warning printed, and the load step returns rather than failing. -/
theorem c7_loadRecovery :
    loadState .missing = (.obj [], false)
    ∧ (∀ s, parseJsonTop s = none → loadState (.content s) = (.obj [], true)) := by
  refine ⟨rfl, fun s h => ?_⟩
  simp [loadState, h]

/-- C7 witness: concrete malformed content recovers to the empty object
with a warning. -/
theorem c7_witness :
    parseJsonTop "; not json" = none ∧
    loadState (.content "; not json") = (.obj [], true) :=
  ⟨rfl, c7_loadRecovery.2 "; not json" rfl⟩

/-- C8: for a state file whose bytes were produced by `save` (keys are
plain strings, as every URL is), loading parses back exactly the saved
mapping, so re-serializing what was read and writing it back leaves the
file's bytes identical. -/
theorem c8_saveLoadRoundTrip (st : List (String × Bool))
    (h : ∀ kb ∈ st, validKey kb.1 = true) :
    parseStateFile (stringifyState st) = some st ∧
    (∀ st', parseStateFile (stringifyState st) = some st' →
      stringifyState st' = stringifyState st) := by
  have main : parseStateFile (stringifyState st) = some st := by
    show parseStateChars (String.mk (stringifyChars st)).data = some st
    exact parseStateChars_print st h
  refine ⟨main, fun st' h' => ?_⟩
  rw [main, Option.some.injEq] at h'
  rw [← h']

/-- C8 witness: a concrete one-URL state map round-trips byte for byte. -/
theorem c8_witness :
    parseStateFile (stringifyState [("https://www.popmart.com/us/products/1066", true)])
      = some [("https://www.popmart.com/us/products/1066", true)] ∧
    (∀ st', parseStateFile
        (stringifyState [("https://www.popmart.com/us/products/1066", true)]) = some st' →
      stringifyState st'
        = stringifyState [("https://www.popmart.com/us/products/1066", true)]) :=
  c8_saveLoadRoundTrip [("https://www.popmart.com/us/products/1066", true)] (by decide)

/-- C10: the file content `null` is accepted by the parser, so the load
step hands `null` to the seeding loop without any recovery, and the very
first seeding iteration throws a TypeError instead of producing a mapping
with every tracked URL present. -/
theorem c10_nullStateCrash (urls : List String) (h : urls ≠ []) :
    loadState (.content "null") = (.null, false) ∧
    seedJs .null urls = .error "TypeError: Cannot read properties of null" := by
  refine ⟨rfl, ?_⟩
  cases urls with
  | nil => exact absurd rfl h
  | cons u rest => rfl

/-- C10 witness: tracking the single URL "X" with state file content
`null`. -/
theorem c10_witness :
    loadState (.content "null") = (.null, false) ∧
    seedJs .null ["X"] = .error "TypeError: Cannot read properties of null" :=
  c10_nullStateCrash ["X"] (by simp)

end PopmartMonitor
